import Mathlib

/-! ControlWeb: complex analysis service and block state history

Shallow embedding of `src/math/complexAnalysis/complexAnalysisService.js`; the history code of
`src/model/blockStateService.js` follows in its own section.

* JavaScript numbers are read as exact numbers: coefficients live in a
  commutative ring (a field where a quotient is taken), index arithmetic in `Int`.
* `termsArray.map((t, i) => ...)` is `List.mapIdx`, `.reduce(f, init)` is `List.foldl`.
* `util/commons.js` (`isEven`, `isOdd`) and `assets/lib/Complex/Complex.js` (`Complex`)
  are imported by the source but are not part of it; they are modelled from the
  specification and marked as such.
-/

namespace ControlWeb

/-! ## Imported helpers -/

/-- Modelled from the spec: `isEven` of `util/commons.js`, which is imported but absent from
the sources; the usual integer parity test. -/
def isEven (n : Int) : Bool := n % 2 == 0

/-- Modelled from the spec: `isOdd` of `util/commons.js`, which is imported but absent from
the sources; the usual integer parity test. -/
def isOdd (n : Int) : Bool := n % 2 == 1

/-- The failure conditions named by the error taxonomy of the specification. -/
inductive EvalError where
  | DivisionByZero
  | InvalidInput
deriving DecidableEq, Repr

/-- Modelled from the spec: the `Complex` value type of `assets/lib/Complex/Complex.js`, which is
imported but absent from the sources; a pair (real, imaginary). -/
structure Complex (R : Type) where
  real : R
  im : R
deriving DecidableEq, Repr

namespace Complex

variable {R : Type}

/-- Modelled from the spec: `Complex.from(x)` for a real number `x` (absent library), the
complex number `(x, 0)`. -/
def fromNumber [Zero R] (x : R) : Complex R := ⟨x, 0⟩

/-- Modelled from the spec: `Complex.from(z)` for a complex `z` (absent library), a copy of `z`. -/
def fromComplex (z : Complex R) : Complex R := ⟨z.real, z.im⟩

/-- Modelled from the spec: `add` of the absent `Complex` library, standard complex addition. -/
def add [Add R] (a z : Complex R) : Complex R := ⟨a.real + z.real, a.im + z.im⟩

/-- Modelled from the spec: `multiply` of the absent `Complex` library, standard complex
multiplication. -/
def multiply [Add R] [Sub R] [Mul R] (a z : Complex R) : Complex R :=
  ⟨a.real * z.real - a.im * z.im, a.real * z.im + a.im * z.real⟩

/-- Modelled from the spec: `pow` of the absent `Complex` library for a natural exponent, repeated
multiplication, with exponent 0 giving `(1, 0)` whatever the base. -/
def pow [Zero R] [One R] [Add R] [Sub R] [Mul R] (a : Complex R) : Nat → Complex R
  | 0 => ⟨1, 0⟩
  | n + 1 => (pow a n).multiply a

/-- Modelled from the spec: `divide` of the absent `Complex` library, the field quotient, failing
with `DivisionByZero` when the divisor is `(0, 0)`. -/
def divide [Field R] [DecidableEq R] (a z : Complex R) : Except EvalError (Complex R) :=
  if z.real = 0 ∧ z.im = 0 then
    Except.error EvalError.DivisionByZero
  else
    let divident := z.real * z.real + z.im * z.im
    Except.ok ⟨(a.real * z.real + a.im * z.im) / divident,
               (a.im * z.real - a.real * z.im) / divident⟩

end Complex

/-! ## The service -/

section Service

variable {R : Type}

/-- Source lines 37-48 of `complexAnalysisService.js`: the real terms of the polynomial in `w`
obtained by substituting `s = w*i`. The quotient `(length - i - 1) / 2` is inspected only behind
the guard `isEven (length - i - 1)`, where integer division is exact. -/
def polynomialEvaluatedWithWiRealTermsArray [Zero R] [Neg R] (termsArray : List R) : List R :=
  let length : Int := termsArray.length
  termsArray.mapIdx fun i t =>
    if isOdd (length - i - 1) then
      0
    else if isEven (length - i - 1) && isEven ((length - i - 1) / 2) then
      t
    else
      -t

/-- Source lines 75-86 of `complexAnalysisService.js`: the imaginary terms of the polynomial in
`w` obtained by substituting `s = w*i`. The quotient `(length - i - 1 - 1) / 2` is inspected only
behind the guard `isOdd (length - i - 1)`, where integer division is exact. -/
def polynomialEvaluatedWithWiImagTermsArray [Zero R] [Neg R] (termsArray : List R) : List R :=
  let length : Int := termsArray.length
  termsArray.mapIdx fun i t =>
    if isOdd (length - i - 1) && isOdd ((length - i - 1 - 1) / 2) then
      -t
    else if isOdd (length - i - 1) then
      t
    else
      0

/-- Source lines 102-111 of `complexAnalysisService.js`: every term is multiplied by the matching
power of the argument and the products are added up from the complex zero. -/
def polynomialEvaluatedWithComplexNumber [CommRing R] (termsArray : List R)
    (complex : Complex R) : Complex R :=
  let length : Int := termsArray.length
  (termsArray.mapIdx fun i term =>
      (Complex.fromNumber term).multiply
        ((Complex.fromComplex complex).pow (length - i - 1).toNat)).foldl
    (fun acc x => acc.add x) ⟨0, 0⟩

/-- Source lines 92-100 of `complexAnalysisService.js`: the transfer function as a function of
the complex argument, numerator value divided by denominator value. -/
def tfEvaluatedWithComplexNumber [Field R] [DecidableEq R] (numTermsArray denTermsArray : List R) :
    Complex R → Except EvalError (Complex R) :=
  fun complex =>
    (polynomialEvaluatedWithComplexNumber numTermsArray complex).divide
      (polynomialEvaluatedWithComplexNumber denTermsArray complex)

end Service

/-! ## Reference definitions used by the statements -/

/-- Value at `w` of the real polynomial whose coefficients are `coeffs`, highest degree first. -/
def realPolynomialValue {R : Type} [CommRing R] (coeffs : List R) (w : R) : R :=
  ∑ i in Finset.range coeffs.length, coeffs.getD i 0 * w ^ (coeffs.length - 1 - i)

/-- The complex number of Mathlib that a pair of real numbers stands for. -/
def Complex.toMathlib (z : Complex ℝ) : ℂ := ⟨z.real, z.im⟩

/-! ## Block state history

Shallow embedding of the state history of `src/model/blockStateService.js` (lines 130-212).

* A block state (the object returned by `getBlockState`) is a value of an arbitrary type `S`;
  `getBlockState` reads the live document, so the state it captures is an argument of the store.
* The record `BlockHistory` gathers what the history code reads and writes: the fields
  `_stateHistory` and `_currentHistoricalState` of the block, the module variable
  `historicalStateStorageEnabled` and the `disabled` flags of the two buttons.
* `clearBlockStateHistory` sets `_currentHistoricalState` to an empty array, so the field is not
  always a number; `JsIndex` keeps the values it can take together with their coercions.
-/

/-- The values of `_currentHistoricalState` and of `_currentHistoricalState + 1`: the empty array
written by `clearBlockStateHistory`, a number, or a string of decimal digits without a leading
zero, kept as the natural number it spells (`[] + 1` is the string `"1"`, the only way such a
string comes up, so the strings are `"1"`, `"11"`, and so on). -/
inductive JsIndex where
  | emptyArray
  | number (n : Int)
  | numeral (n : Nat)
deriving DecidableEq, Repr

namespace JsIndex

/-- Numeric coercion, as applied by `-`, `<` and `>=`: the empty array counts as 0 and a string of
digits as the number it spells. -/
def toNumber : JsIndex → Int
  | emptyArray => 0
  | number n => n
  | numeral n => n

/-- The value of `v + 1`: arithmetic on a number, string concatenation otherwise (`[] + 1` is
`"1"`, and a string of digits gets the digit 1 appended). -/
def plusOne : JsIndex → JsIndex
  | emptyArray => numeral 1
  | number n => number (n + 1)
  | numeral n => numeral (10 * n + 1)

/-- Strict equality `v === n` with a number `n`: true only for the same number. -/
def strictEq (v : JsIndex) (n : Int) : Bool :=
  match v with
  | number m => m == n
  | _ => false

/-- Property access `array[v]`: the element at that index, `none` standing for `undefined`. -/
def lookup {S : Type} (l : List S) : JsIndex → Option S
  | emptyArray => none
  | number n => if 0 ≤ n then l[n.toNat]? else none
  | numeral n => l[n]?

end JsIndex

/-- What is left of an array after `Array.prototype.splice(start)` with a single argument: a
negative `start` counts from the end, and every element from the start position on is removed. -/
def splice {S : Type} (l : List S) (start : Int) : List S :=
  let len : Int := l.length
  let actualStart : Int := if start < 0 then max (len + start) 0 else min start len
  l.take actualStart.toNat

/-- Source line 133. -/
def maxHistoricalStatesNumber : Nat := 150

/-- Everything the history code of `blockStateService.js` reads and writes. -/
structure BlockHistory (S : Type) where
  _stateHistory : List S
  _currentHistoricalState : JsIndex
  historicalStateStorageEnabled : Bool
  previousButtonDisabled : Bool
  nextButtonDisabled : Bool
deriving DecidableEq, Repr

/-- What `loadPreviousHistoricalBlockState` or `loadNextHistoricalBlockState` handed to
`setBlockState`: nothing (the guard was false), an entry of the history, or `undefined`, on which
`setBlockState` throws a `TypeError` when it reads `state.tfs`. -/
inductive Restored (S : Type) where
  | nothing
  | entry (state : S)
  | undefinedEntry
deriving DecidableEq, Repr

section History

variable {S : Type}

/-- Source lines 136-137. -/
def enableHistoricalStateStorage (b : BlockHistory S) : BlockHistory S :=
  { b with historicalStateStorageEnabled := true }

/-- Source lines 138-139. -/
def disableHistoricalStateStorage (b : BlockHistory S) : BlockHistory S :=
  { b with historicalStateStorageEnabled := false }

/-- Source lines 144-147. -/
def clearBlockStateHistory (b : BlockHistory S) : BlockHistory S :=
  { b with _stateHistory := [], _currentHistoricalState := JsIndex.emptyArray }

/-- Source lines 152-175; `currentState` is the state that `getBlockState` captures. -/
def storeNewHistoricalBlockState (currentState : S) (b : BlockHistory S) : BlockHistory S :=
  if b.historicalStateStorageEnabled then
    let length : Int := b._stateHistory.length
    let spliced :=
      if !(b._currentHistoricalState.strictEq (length - 1)) then
        splice b._stateHistory (-(length - b._currentHistoricalState.toNumber - 1))
      else
        b._stateHistory
    let pushed := spliced ++ [currentState]
    let shifted := if pushed.length > maxHistoricalStatesNumber then pushed.drop 1 else pushed
    { b with
      _stateHistory := shifted
      _currentHistoricalState := JsIndex.number ((shifted.length : Int) - 1)
      previousButtonDisabled := false
      nextButtonDisabled := true }
  else
    b

/-- Source lines 54-67, `setBlockState` called with an existing state, as far as the history is
concerned. The element constructors and `connectWithoutChecks` that rebuild the block are not part
of the sources; `nested` lists the states of the attempts they make to store a new historical
state while the block is rebuilt. -/
def setBlockState (nested : List S) (b : BlockHistory S) : BlockHistory S :=
  nested.foldl (fun acc currentState => storeNewHistoricalBlockState currentState acc) b

/-- Source lines 183-195. When the entry read from the history is `undefined`, `setBlockState`
throws and the rest of the function is skipped, storage staying disabled. -/
def loadPreviousHistoricalBlockState (nested : List S) (b : BlockHistory S) :
    BlockHistory S × Restored S :=
  let previousHistoricalState : Int := b._currentHistoricalState.toNumber - 1
  if previousHistoricalState ≥ 0 then
    let b1 := disableHistoricalStateStorage b
    match JsIndex.lookup b1._stateHistory (JsIndex.number previousHistoricalState) with
    | none => (b1, Restored.undefinedEntry)
    | some state =>
      let b2 := setBlockState nested b1
      let b3 := { b2 with _currentHistoricalState := JsIndex.number previousHistoricalState }
      let b4 := enableHistoricalStateStorage b3
      let b5 := { b4 with nextButtonDisabled := false }
      (if b5._currentHistoricalState.strictEq 0 then { b5 with previousButtonDisabled := true }
        else b5,
       Restored.entry state)
  else
    (if b._currentHistoricalState.strictEq 0 then { b with previousButtonDisabled := true } else b,
     Restored.nothing)

/-- Source lines 200-212. When the entry read from the history is `undefined`, `setBlockState`
throws and the rest of the function is skipped, storage staying disabled. -/
def loadNextHistoricalBlockState (nested : List S) (b : BlockHistory S) :
    BlockHistory S × Restored S :=
  let nextHistoricalState : JsIndex := b._currentHistoricalState.plusOne
  if nextHistoricalState.toNumber < (b._stateHistory.length : Int) then
    let b1 := disableHistoricalStateStorage b
    match JsIndex.lookup b1._stateHistory nextHistoricalState with
    | none => (b1, Restored.undefinedEntry)
    | some state =>
      let b2 := setBlockState nested b1
      let b3 := { b2 with _currentHistoricalState := nextHistoricalState }
      let b4 := enableHistoricalStateStorage b3
      let b5 := { b4 with previousButtonDisabled := false }
      (if b5._currentHistoricalState.plusOne.strictEq (b5._stateHistory.length : Int) then
          { b5 with nextButtonDisabled := true }
        else b5,
       Restored.entry state)
  else
    (if b._currentHistoricalState.plusOne.strictEq (b._stateHistory.length : Int) then
        { b with nextButtonDisabled := true }
      else b,
     Restored.nothing)

/-- One call of the history interface, with the data the call depends on. -/
inductive HistoryAction (S : Type) where
  | store (currentState : S)
  | loadPrevious (nested : List S)
  | loadNext (nested : List S)

/-- The history after one call. -/
def HistoryAction.apply (a : HistoryAction S) (b : BlockHistory S) : BlockHistory S :=
  match a with
  | HistoryAction.store currentState => storeNewHistoricalBlockState currentState b
  | HistoryAction.loadPrevious nested => (loadPreviousHistoricalBlockState nested b).1
  | HistoryAction.loadNext nested => (loadNextHistoricalBlockState nested b).1

/-- The history after a sequence of calls, first call first. -/
def runActions (actions : List (HistoryAction S)) (b : BlockHistory S) : BlockHistory S :=
  actions.foldl (fun acc a => a.apply acc) b

end History

/-! ## Auxiliary facts -/

section Aux

variable {R : Type}

theorem Complex.eq_of_parts {a z : Complex R} (hr : a.real = z.real) (hi : a.im = z.im) :
    a = z := by
  cases a; cases z; simp_all

theorem realTerms_cons [Zero R] [Neg R] (a : R) (l : List R) :
    polynomialEvaluatedWithWiRealTermsArray (a :: l) =
      (if isOdd l.length then 0
        else if isEven l.length && isEven ((l.length : Int) / 2) then a else -a) ::
        polynomialEvaluatedWithWiRealTermsArray l := by
  simp only [polynomialEvaluatedWithWiRealTermsArray, List.mapIdx_cons, List.length_cons]
  have h0 : ((l.length + 1 : Nat) : Int) - ((0 : Nat) : Int) - 1 = (l.length : Int) := by
    push_cast; ring
  have hs : ∀ i : Nat, ((l.length + 1 : Nat) : Int) - ((i + 1 : Nat) : Int) - 1
      = (l.length : Int) - (i : Int) - 1 := by
    intro i; push_cast; ring
  simp only [h0, hs]

theorem imagTerms_cons [Zero R] [Neg R] (a : R) (l : List R) :
    polynomialEvaluatedWithWiImagTermsArray (a :: l) =
      (if isOdd l.length && isOdd (((l.length : Int) - 1) / 2) then -a
        else if isOdd l.length then a else 0) ::
        polynomialEvaluatedWithWiImagTermsArray l := by
  simp only [polynomialEvaluatedWithWiImagTermsArray, List.mapIdx_cons, List.length_cons]
  have h0 : ((l.length + 1 : Nat) : Int) - ((0 : Nat) : Int) - 1 = (l.length : Int) := by
    push_cast; ring
  have hs : ∀ i : Nat, ((l.length + 1 : Nat) : Int) - ((i + 1 : Nat) : Int) - 1
      = (l.length : Int) - (i : Int) - 1 := by
    intro i; push_cast; ring
  simp only [h0, hs]

theorem realTerms_length [Zero R] [Neg R] (l : List R) :
    (polynomialEvaluatedWithWiRealTermsArray l).length = l.length := by
  simp [polynomialEvaluatedWithWiRealTermsArray]

theorem imagTerms_length [Zero R] [Neg R] (l : List R) :
    (polynomialEvaluatedWithWiImagTermsArray l).length = l.length := by
  simp [polynomialEvaluatedWithWiImagTermsArray]

theorem foldl_add_start [CommRing R] (l : List (Complex R)) (a : Complex R) :
    l.foldl (fun acc x => acc.add x) a = a.add (l.foldl (fun acc x => acc.add x) ⟨0, 0⟩) := by
  induction l generalizing a with
  | nil => exact Complex.eq_of_parts (by simp [Complex.add]) (by simp [Complex.add])
  | cons x xs ih =>
    rw [List.foldl_cons, List.foldl_cons, ih (a.add x), ih (Complex.add ⟨0, 0⟩ x)]
    exact Complex.eq_of_parts (by simp [Complex.add]; ring) (by simp [Complex.add]; ring)

theorem poly_nil [CommRing R] (z : Complex R) :
    polynomialEvaluatedWithComplexNumber ([] : List R) z = ⟨0, 0⟩ := by
  simp [polynomialEvaluatedWithComplexNumber]

theorem poly_cons [CommRing R] (a : R) (l : List R) (z : Complex R) :
    polynomialEvaluatedWithComplexNumber (a :: l) z =
      ((Complex.fromNumber a).multiply (z.pow l.length)).add
        (polynomialEvaluatedWithComplexNumber l z) := by
  simp only [polynomialEvaluatedWithComplexNumber, List.mapIdx_cons, List.length_cons,
    List.foldl_cons]
  have h0 : (((l.length + 1 : Nat) : Int) - ((0 : Nat) : Int) - 1).toNat = l.length := by
    push_cast; simp
  have hs : ∀ i : Nat, ((l.length + 1 : Nat) : Int) - ((i + 1 : Nat) : Int) - 1
      = (l.length : Int) - (i : Int) - 1 := by
    intro i; push_cast; ring
  have hz : Complex.fromComplex z = z := rfl
  simp only [h0, hs, hz]
  rw [foldl_add_start]
  congr 1
  exact Complex.eq_of_parts (by simp [Complex.add]) (by simp [Complex.add])

theorem pow_imaginary [CommRing R] (w : R) (k : Nat) :
    (Complex.mk 0 w).pow (2 * k) = ⟨(-1) ^ k * w ^ (2 * k), 0⟩ ∧
    (Complex.mk 0 w).pow (2 * k + 1) = ⟨0, (-1) ^ k * w ^ (2 * k + 1)⟩ := by
  induction k with
  | zero => constructor <;> simp [Complex.pow, Complex.multiply]
  | succ k ih =>
    obtain ⟨_, ho⟩ := ih
    have he : (Complex.mk 0 w).pow (2 * (k + 1)) = ⟨(-1) ^ (k + 1) * w ^ (2 * (k + 1)), 0⟩ := by
      have : 2 * (k + 1) = (2 * k + 1) + 1 := by ring
      rw [this, Complex.pow, ho]
      exact Complex.eq_of_parts (by simp [Complex.multiply]; ring) (by simp [Complex.multiply])
    refine ⟨he, ?_⟩
    rw [Complex.pow, he]
    exact Complex.eq_of_parts (by simp [Complex.multiply]) (by simp [Complex.multiply]; ring)

theorem realPolynomialValue_nil [CommRing R] (w : R) :
    realPolynomialValue ([] : List R) w = 0 := by
  simp [realPolynomialValue]

theorem realPolynomialValue_cons [CommRing R] (a : R) (l : List R) (w : R) :
    realPolynomialValue (a :: l) w = a * w ^ l.length + realPolynomialValue l w := by
  simp only [realPolynomialValue, List.length_cons]
  have h : ∀ i ∈ Finset.range l.length,
      (a :: l).getD (i + 1) 0 * w ^ (l.length + 1 - 1 - (i + 1)) =
        l.getD i 0 * w ^ (l.length - 1 - i) := by
    intro i _
    have he : l.length + 1 - 1 - (i + 1) = l.length - 1 - i := by omega
    rw [he]
    simp
  rw [Finset.sum_range_succ', Finset.sum_congr rfl h]
  simp [add_comm]

theorem real_part_term [CommRing R] (a w : R) (n : Nat) :
    ((Complex.fromNumber a).multiply ((Complex.mk 0 w).pow n)).real =
      (if isOdd n then 0
        else if isEven n && isEven ((n : Int) / 2) then a else -a) * w ^ n := by
  obtain ⟨k, hk | hk⟩ := Nat.even_or_odd' n
  · have hodd : isOdd (n : Int) = false := by simp [isOdd]; omega
    have hev : isEven (n : Int) = true := by simp [isEven]; omega
    rw [hodd, hev, hk, (pow_imaginary w k).1]
    have hdiv : (((2 * k : Nat) : Int) / 2) = (k : Int) := by omega
    rw [hdiv]
    obtain ⟨j, hj | hj⟩ := Nat.even_or_odd' k
    · have hp : isEven (k : Int) = true := by simp [isEven]; omega
      have hs : (-1 : R) ^ k = 1 := Even.neg_one_pow ⟨j, by omega⟩
      rw [hp]
      simp [Complex.multiply, Complex.fromNumber, hs]
    · have hp : isEven (k : Int) = false := by simp [isEven]; omega
      have hs : (-1 : R) ^ k = -1 := Odd.neg_one_pow ⟨j, hj⟩
      rw [hp]
      simp [Complex.multiply, Complex.fromNumber, hs]
  · have hodd : isOdd (n : Int) = true := by simp [isOdd]; omega
    rw [hodd, hk, (pow_imaginary w k).2]
    simp [Complex.multiply, Complex.fromNumber]

theorem imag_part_term [CommRing R] (a w : R) (n : Nat) :
    ((Complex.fromNumber a).multiply ((Complex.mk 0 w).pow n)).im =
      (if isOdd n && isOdd (((n : Int) - 1) / 2) then -a
        else if isOdd n then a else 0) * w ^ n := by
  obtain ⟨k, hk | hk⟩ := Nat.even_or_odd' n
  · have hodd : isOdd (n : Int) = false := by simp [isOdd]; omega
    rw [hodd, hk, (pow_imaginary w k).1]
    simp [Complex.multiply, Complex.fromNumber]
  · have hodd : isOdd (n : Int) = true := by simp [isOdd]; omega
    rw [hodd, hk, (pow_imaginary w k).2]
    have hdiv : ((((2 * k + 1 : Nat) : Int) - 1) / 2) = (k : Int) := by omega
    rw [hdiv]
    obtain ⟨j, hj | hj⟩ := Nat.even_or_odd' k
    · have hp : isOdd (k : Int) = false := by simp [isOdd]; omega
      have hs : (-1 : R) ^ k = 1 := Even.neg_one_pow ⟨j, by omega⟩
      rw [hp]
      simp [Complex.multiply, Complex.fromNumber, hs]
    · have hp : isOdd (k : Int) = true := by simp [isOdd]; omega
      have hs : (-1 : R) ^ k = -1 := Odd.neg_one_pow ⟨j, hj⟩
      rw [hp]
      simp [Complex.multiply, Complex.fromNumber, hs]

theorem poly_imaginary_parts [CommRing R] (C : List R) (w : R) :
    (polynomialEvaluatedWithComplexNumber C ⟨0, w⟩).real =
        realPolynomialValue (polynomialEvaluatedWithWiRealTermsArray C) w ∧
    (polynomialEvaluatedWithComplexNumber C ⟨0, w⟩).im =
        realPolynomialValue (polynomialEvaluatedWithWiImagTermsArray C) w := by
  induction C with
  | nil =>
    simp [poly_nil, polynomialEvaluatedWithWiRealTermsArray,
      polynomialEvaluatedWithWiImagTermsArray, realPolynomialValue_nil]
  | cons a l ih =>
    rw [poly_cons, realTerms_cons, imagTerms_cons, realPolynomialValue_cons,
      realPolynomialValue_cons, realTerms_length, imagTerms_length, ← ih.1, ← ih.2]
    constructor
    · show _ + _ = _
      rw [real_part_term]
    · show _ + _ = _
      rw [imag_part_term]

end Aux

/-! ## The fast path against the complex evaluation -/

/-- C1: for every non-empty sequence `C` of coefficients (highest degree first) and every `w`,
evaluating `C` at the purely imaginary point `(0, w)` gives the complex number whose real part is
the polynomial with coefficients `polynomialEvaluatedWithWiRealTermsArray C` evaluated at `w` and
whose imaginary part is the polynomial with coefficients
`polynomialEvaluatedWithWiImagTermsArray C` evaluated at `w`. -/
theorem C1_imaginary_axis_split {R : Type} [CommRing R] (C : List R) (_hC : C ≠ []) (w : R) :
    polynomialEvaluatedWithComplexNumber C ⟨0, w⟩ =
      ⟨realPolynomialValue (polynomialEvaluatedWithWiRealTermsArray C) w,
       realPolynomialValue (polynomialEvaluatedWithWiImagTermsArray C) w⟩ :=
  Complex.eq_of_parts (poly_imaginary_parts C w).1 (poly_imaginary_parts C w).2

/-- Witness of C1: the sequence `[5, 3, 7]` at `w = 0`, `w = 1` and `w = -2`, where the complex
evaluation gives `(7, 0)`, `(2, 3)` and `(-13, -6)`. -/
theorem C1_imaginary_axis_split_witness :
    ([5, 3, 7] : List ℚ) ≠ [] ∧
    (polynomialEvaluatedWithComplexNumber ([5, 3, 7] : List ℚ) ⟨0, 0⟩ =
      ⟨realPolynomialValue (polynomialEvaluatedWithWiRealTermsArray ([5, 3, 7] : List ℚ)) 0,
       realPolynomialValue (polynomialEvaluatedWithWiImagTermsArray ([5, 3, 7] : List ℚ)) 0⟩) ∧
    (polynomialEvaluatedWithComplexNumber ([5, 3, 7] : List ℚ) ⟨0, 1⟩ =
      ⟨realPolynomialValue (polynomialEvaluatedWithWiRealTermsArray ([5, 3, 7] : List ℚ)) 1,
       realPolynomialValue (polynomialEvaluatedWithWiImagTermsArray ([5, 3, 7] : List ℚ)) 1⟩) ∧
    (polynomialEvaluatedWithComplexNumber ([5, 3, 7] : List ℚ) ⟨0, -2⟩ =
      ⟨realPolynomialValue (polynomialEvaluatedWithWiRealTermsArray ([5, 3, 7] : List ℚ)) (-2),
       realPolynomialValue (polynomialEvaluatedWithWiImagTermsArray ([5, 3, 7] : List ℚ)) (-2)⟩) ∧
    polynomialEvaluatedWithComplexNumber ([5, 3, 7] : List ℚ) ⟨0, -2⟩ = ⟨-13, -6⟩ :=
  ⟨by simp,
   C1_imaginary_axis_split [5, 3, 7] (by simp) 0,
   C1_imaginary_axis_split [5, 3, 7] (by simp) 1,
   C1_imaginary_axis_split [5, 3, 7] (by simp) (-2),
   by
     simp [poly_cons, poly_nil, Complex.pow, Complex.multiply, Complex.add, Complex.fromNumber]
     norm_num⟩

/-! ## The real and imaginary terms arrays -/

section Splitter

variable {R : Type}

/-- C2: for every coefficient sequence `C` of length `n`, the real terms array has length `n`,
and at every index `i < n`, with degree `k = n - 1 - i`, its entry is `0` when `k` is odd, `C[i]`
when `k` is even and `k / 2` is even (`k mod 4 = 0`), and `-C[i]` when `k` is even and `k / 2`
is odd (`k mod 4 = 2`). -/
theorem C2_real_terms_by_degree [Zero R] [Neg R] (C : List R) :
    (polynomialEvaluatedWithWiRealTermsArray C).length = C.length ∧
    ∀ (i : Nat) (h : i < C.length),
      ((C.length - 1 - i) % 2 = 1 →
        (polynomialEvaluatedWithWiRealTermsArray C)[i]? = some 0) ∧
      ((C.length - 1 - i) % 2 = 0 ∧ ((C.length - 1 - i) / 2) % 2 = 0 →
        (polynomialEvaluatedWithWiRealTermsArray C)[i]? = some C[i]) ∧
      ((C.length - 1 - i) % 2 = 0 ∧ ((C.length - 1 - i) / 2) % 2 = 1 →
        (polynomialEvaluatedWithWiRealTermsArray C)[i]? = some (-C[i])) := by
  refine ⟨realTerms_length C, fun i h => ?_⟩
  have hk : ((C.length : Int) - i - 1) = ((C.length - 1 - i : Nat) : Int) := by omega
  simp only [polynomialEvaluatedWithWiRealTermsArray, List.getElem?_mapIdx,
    List.getElem?_eq_getElem h, Option.map_some', hk]
  generalize C.length - 1 - i = k
  refine ⟨fun h1 => ?_, fun h2 => ?_, fun h3 => ?_⟩
  · have ho : isOdd (k : Int) = true := by simp [isOdd]; omega
    simp [ho]
  · have ho : isOdd (k : Int) = false := by simp [isOdd]; omega
    have he : isEven (k : Int) = true := by simp [isEven]; omega
    have hh : isEven ((k : Int) / 2) = true := by simp [isEven]; omega
    simp [ho, he, hh]
  · have ho : isOdd (k : Int) = false := by simp [isOdd]; omega
    have hh : isEven ((k : Int) / 2) = false := by simp [isEven]; omega
    simp [ho, hh]

/-- Witness of C2: in `[5, 3, 7]` the entry at index 0 has degree 2, which is even with an odd
half, so the real terms array holds `-5` there. -/
theorem C2_real_terms_by_degree_witness :
    (0 < ([5, 3, 7] : List Int).length) ∧
    ((([5, 3, 7] : List Int).length - 1 - 0) % 2 = 0 ∧
      ((([5, 3, 7] : List Int).length - 1 - 0) / 2) % 2 = 1) ∧
    (polynomialEvaluatedWithWiRealTermsArray ([5, 3, 7] : List Int))[0]? = some (-5) :=
  ⟨by decide, by decide,
    ((C2_real_terms_by_degree ([5, 3, 7] : List Int)).2 0 (by decide)).2.2 (by decide)⟩

/-- C3: for every coefficient sequence `C` of length `n`, the imaginary terms array has length
`n`, and at every index `i < n`, with degree `k = n - 1 - i`, its entry is `0` when `k` is even,
`C[i]` when `k` is odd and `(k - 1) / 2` is even (`k mod 4 = 1`), and `-C[i]` when `k` is odd and
`(k - 1) / 2` is odd (`k mod 4 = 3`). -/
theorem C3_imag_terms_by_degree [Zero R] [Neg R] (C : List R) :
    (polynomialEvaluatedWithWiImagTermsArray C).length = C.length ∧
    ∀ (i : Nat) (h : i < C.length),
      ((C.length - 1 - i) % 2 = 0 →
        (polynomialEvaluatedWithWiImagTermsArray C)[i]? = some 0) ∧
      ((C.length - 1 - i) % 2 = 1 ∧ ((C.length - 1 - i - 1) / 2) % 2 = 0 →
        (polynomialEvaluatedWithWiImagTermsArray C)[i]? = some C[i]) ∧
      ((C.length - 1 - i) % 2 = 1 ∧ ((C.length - 1 - i - 1) / 2) % 2 = 1 →
        (polynomialEvaluatedWithWiImagTermsArray C)[i]? = some (-C[i])) := by
  refine ⟨imagTerms_length C, fun i h => ?_⟩
  have hk : ((C.length : Int) - i - 1) = ((C.length - 1 - i : Nat) : Int) := by omega
  simp only [polynomialEvaluatedWithWiImagTermsArray, List.getElem?_mapIdx,
    List.getElem?_eq_getElem h, Option.map_some', hk]
  generalize C.length - 1 - i = k
  refine ⟨fun h1 => ?_, fun h2 => ?_, fun h3 => ?_⟩
  · have ho : isOdd (k : Int) = false := by simp [isOdd]; omega
    simp [ho]
  · have ho : isOdd (k : Int) = true := by simp [isOdd]; omega
    have hh : isOdd (((k : Int) - 1) / 2) = false := by simp [isOdd]; omega
    simp [ho, hh]
  · have ho : isOdd (k : Int) = true := by simp [isOdd]; omega
    have hh : isOdd (((k : Int) - 1) / 2) = true := by simp [isOdd]; omega
    simp [ho, hh]

/-- Witness of C3: in `[9, 5, 3, 7]` the entry at index 0 has degree 3, which is odd with
`(3 - 1) / 2` odd, so the imaginary terms array holds `-9` there. -/
theorem C3_imag_terms_by_degree_witness :
    (0 < ([9, 5, 3, 7] : List Int).length) ∧
    ((([9, 5, 3, 7] : List Int).length - 1 - 0) % 2 = 1 ∧
      ((([9, 5, 3, 7] : List Int).length - 1 - 0 - 1) / 2) % 2 = 1) ∧
    (polynomialEvaluatedWithWiImagTermsArray ([9, 5, 3, 7] : List Int))[0]? = some (-9) :=
  ⟨by decide, by decide,
    ((C3_imag_terms_by_degree ([9, 5, 3, 7] : List Int)).2 0 (by decide)).2.2 (by decide)⟩

/-- C4: the real terms array of `[5, 3, 7]` is `[-5, 0, 7]`. -/
theorem C4_real_terms_example [CommRing R] :
    polynomialEvaluatedWithWiRealTermsArray ([5, 3, 7] : List R) = [-5, 0, 7] := by
  simp [polynomialEvaluatedWithWiRealTermsArray, List.mapIdx_cons, isOdd, isEven]

/-- C5 as stated fails: over the real numbers the imaginary terms array of `[5, 3, 7]` is not
`[3, 0, 0]`. -/
theorem C5_imag_terms_example_refuted :
    polynomialEvaluatedWithWiImagTermsArray ([5, 3, 7] : List ℝ) ≠ [3, 0, 0] := by
  simp [polynomialEvaluatedWithWiImagTermsArray, List.mapIdx_cons, isOdd, isEven]

/-- C5, amended: the imaginary terms array of `[5, 3, 7]` is `[0, 3, 0]`, the coefficient 3 of the
degree-1 term staying at its own position. -/
theorem C5_imag_terms_example_amended [CommRing R] :
    polynomialEvaluatedWithWiImagTermsArray ([5, 3, 7] : List R) = [0, 3, 0] := by
  simp [polynomialEvaluatedWithWiImagTermsArray, List.mapIdx_cons, isOdd, isEven]

/-- C6: for every six-element sequence `[t5, t4, t3, t2, t1, t0]` the real terms array is
`[0, t4, 0, -t2, 0, t0]` and the imaginary terms array is `[t5, 0, -t3, 0, t1, 0]`, as the
formula of both docstrings states. -/
theorem C6_docstring_formula [Zero R] [Neg R] (t5 t4 t3 t2 t1 t0 : R) :
    polynomialEvaluatedWithWiRealTermsArray [t5, t4, t3, t2, t1, t0] =
      [0, t4, 0, -t2, 0, t0] ∧
    polynomialEvaluatedWithWiImagTermsArray [t5, t4, t3, t2, t1, t0] =
      [t5, 0, -t3, 0, t1, 0] := by
  simp [polynomialEvaluatedWithWiRealTermsArray, polynomialEvaluatedWithWiImagTermsArray,
    List.mapIdx_cons, isOdd, isEven]

end Splitter

/-! ## Evaluation at a complex number -/

section Evaluation

theorem toMathlib_add (a z : Complex ℝ) :
    (a.add z).toMathlib = a.toMathlib + z.toMathlib := by
  apply Complex.ext <;> simp [Complex.toMathlib, Complex.add]

theorem toMathlib_multiply (a z : Complex ℝ) :
    (a.multiply z).toMathlib = a.toMathlib * z.toMathlib := by
  apply Complex.ext <;> simp [Complex.toMathlib, Complex.multiply]

theorem toMathlib_fromNumber (x : ℝ) : (Complex.fromNumber x).toMathlib = (x : ℂ) := by
  apply Complex.ext <;> simp [Complex.toMathlib, Complex.fromNumber]

theorem toMathlib_pow (z : Complex ℝ) (n : Nat) : (z.pow n).toMathlib = z.toMathlib ^ n := by
  induction n with
  | zero => apply Complex.ext <;> simp [Complex.toMathlib, Complex.pow]
  | succ n ih => rw [Complex.pow, toMathlib_multiply, ih, pow_succ]

theorem complex_sum_cons (a : ℝ) (l : List ℝ) (x : ℂ) :
    ∑ i in Finset.range (a :: l).length,
        (((a :: l).getD i 0 : ℝ) : ℂ) * x ^ ((a :: l).length - 1 - i) =
      (a : ℂ) * x ^ l.length +
        ∑ i in Finset.range l.length, ((l.getD i 0 : ℝ) : ℂ) * x ^ (l.length - 1 - i) := by
  simp only [List.length_cons]
  have h : ∀ i ∈ Finset.range l.length,
      (((a :: l).getD (i + 1) 0 : ℝ) : ℂ) * x ^ (l.length + 1 - 1 - (i + 1)) =
        ((l.getD i 0 : ℝ) : ℂ) * x ^ (l.length - 1 - i) := by
    intro i _
    have he : l.length + 1 - 1 - (i + 1) = l.length - 1 - i := by omega
    rw [he]
    simp
  rw [Finset.sum_range_succ', Finset.sum_congr rfl h]
  simp [add_comm]

theorem poly_toMathlib (C : List ℝ) (z : Complex ℝ) :
    (polynomialEvaluatedWithComplexNumber C z).toMathlib =
      ∑ i in Finset.range C.length,
        ((C.getD i 0 : ℝ) : ℂ) * z.toMathlib ^ (C.length - 1 - i) := by
  induction C with
  | nil => apply Complex.ext <;> simp [poly_nil, Complex.toMathlib]
  | cons a l ih =>
    rw [poly_cons, toMathlib_add, toMathlib_multiply, toMathlib_fromNumber, toMathlib_pow, ih,
      complex_sum_cons]

/-- C7: for every real coefficient sequence `C` of length `n` and every complex point `z`, the
evaluation of `C` at `z` is the sum over `i < n` of `C[i] * z ^ (n - 1 - i)` (the empty sum being
the complex zero), the value at `z` of the polynomial with coefficients `C`, highest degree first;
in particular `[1, 0, 0]` at `2i` gives `-4`. -/
theorem C7_evaluation_is_polynomial_value :
    (∀ (C : List ℝ) (z : Complex ℝ),
      (polynomialEvaluatedWithComplexNumber C z).toMathlib =
        ∑ i in Finset.range C.length,
          ((C.getD i 0 : ℝ) : ℂ) * z.toMathlib ^ (C.length - 1 - i)) ∧
    polynomialEvaluatedWithComplexNumber ([1, 0, 0] : List ℝ) ⟨0, 2⟩ = ⟨-4, 0⟩ := by
  refine ⟨poly_toMathlib, ?_⟩
  simp [poly_cons, poly_nil, Complex.pow, Complex.multiply, Complex.add, Complex.fromNumber]
  norm_num

end Evaluation

/-! ## The transfer function -/

section TransferFunction

theorem divide_of_ne_zero {R : Type} [LinearOrderedField R] [DecidableEq R] (a z : Complex R)
    (hz : z ≠ ⟨0, 0⟩) :
    ∃ q, a.divide z = Except.ok q ∧ q.multiply z = a := by
  have hne : ¬ (z.real = 0 ∧ z.im = 0) := by
    rintro ⟨hr, hi⟩
    exact hz (Complex.eq_of_parts hr hi)
  have hd : z.real * z.real + z.im * z.im ≠ 0 := by
    intro h0
    exact hne (mul_self_add_mul_self_eq_zero.mp h0)
  refine ⟨⟨(a.real * z.real + a.im * z.im) / (z.real * z.real + z.im * z.im),
    (a.im * z.real - a.real * z.im) / (z.real * z.real + z.im * z.im)⟩, ?_, ?_⟩
  · simp [Complex.divide, hne]
  · apply Complex.eq_of_parts
    · simp only [Complex.multiply]
      field_simp
      ring
    · simp only [Complex.multiply]
      field_simp
      ring

theorem divide_by_zero {R : Type} [Field R] [DecidableEq R] (a : Complex R) :
    a.divide ⟨0, 0⟩ = Except.error EvalError.DivisionByZero := by
  simp [Complex.divide]

/-- C8: for all coefficient sequences `num` and `den` and every complex `z` at which `den` does
not evaluate to zero, the transfer function returns a value `q`, and `q` is the quotient of the
numerator evaluated at `z` by the denominator evaluated at the same `z`: multiplied by the
denominator value it gives back the numerator value. -/
theorem C8_transfer_function_quotient {R : Type} [LinearOrderedField R] [DecidableEq R]
    (num den : List R) (z : Complex R)
    (hden : polynomialEvaluatedWithComplexNumber den z ≠ ⟨0, 0⟩) :
    ∃ q, tfEvaluatedWithComplexNumber num den z = Except.ok q ∧
      q.multiply (polynomialEvaluatedWithComplexNumber den z) =
        polynomialEvaluatedWithComplexNumber num z :=
  divide_of_ne_zero _ _ hden

/-- Witness of C8: numerator `[1]`, denominator `[1, -2]` at `z = 3`, where the denominator
evaluates to `(1, 0)`. -/
theorem C8_transfer_function_quotient_witness :
    polynomialEvaluatedWithComplexNumber ([1, -2] : List ℚ) ⟨3, 0⟩ ≠ ⟨0, 0⟩ ∧
    ∃ q, tfEvaluatedWithComplexNumber ([1] : List ℚ) [1, -2] ⟨3, 0⟩ = Except.ok q ∧
      q.multiply (polynomialEvaluatedWithComplexNumber ([1, -2] : List ℚ) ⟨3, 0⟩) =
        polynomialEvaluatedWithComplexNumber ([1] : List ℚ) ⟨3, 0⟩ := by
  have hden : polynomialEvaluatedWithComplexNumber ([1, -2] : List ℚ) ⟨3, 0⟩ ≠ ⟨0, 0⟩ := by
    simp [poly_cons, poly_nil, Complex.pow, Complex.multiply, Complex.add, Complex.fromNumber]
    norm_num
  exact ⟨hden, C8_transfer_function_quotient [1] [1, -2] ⟨3, 0⟩ hden⟩

/-- C9: for all coefficient sequences `num` and `den` and every complex `z` at which `den`
evaluates to `(0, 0)`, the transfer function signals `DivisionByZero` instead of returning a
value. -/
theorem C9_transfer_function_pole {R : Type} [Field R] [DecidableEq R]
    (num den : List R) (z : Complex R)
    (hden : polynomialEvaluatedWithComplexNumber den z = ⟨0, 0⟩) :
    tfEvaluatedWithComplexNumber num den z = Except.error EvalError.DivisionByZero := by
  simp only [tfEvaluatedWithComplexNumber, hden]
  exact divide_by_zero _

/-- Witness of C9: numerator `[1]`, denominator `[1, -2]` at `z = 2`, a pole. -/
theorem C9_transfer_function_pole_witness :
    polynomialEvaluatedWithComplexNumber ([1, -2] : List ℚ) ⟨2, 0⟩ = ⟨0, 0⟩ ∧
    tfEvaluatedWithComplexNumber ([1] : List ℚ) [1, -2] ⟨2, 0⟩ =
      Except.error EvalError.DivisionByZero := by
  have hden : polynomialEvaluatedWithComplexNumber ([1, -2] : List ℚ) ⟨2, 0⟩ = ⟨0, 0⟩ := by
    simp [poly_cons, poly_nil, Complex.pow, Complex.multiply, Complex.add, Complex.fromNumber]
  exact ⟨hden, C9_transfer_function_pole [1] [1, -2] ⟨2, 0⟩ hden⟩

/-- C10 as stated fails: the empty coefficient sequence evaluates to the value `(0, 0)` at the
point `2`, the transfer function with an empty numerator over the denominator `[1]` returns the
value `(0, 0)` there, and with an empty denominator the failure is `DivisionByZero`; none of them
is `InvalidInput`. -/
theorem C10_empty_sequence_refuted :
    polynomialEvaluatedWithComplexNumber ([] : List ℚ) ⟨2, 0⟩ = ⟨0, 0⟩ ∧
    tfEvaluatedWithComplexNumber ([] : List ℚ) [1] ⟨2, 0⟩ = Except.ok ⟨0, 0⟩ ∧
    tfEvaluatedWithComplexNumber ([] : List ℚ) [1] ⟨2, 0⟩ ≠
      Except.error EvalError.InvalidInput ∧
    tfEvaluatedWithComplexNumber ([1] : List ℚ) [] ⟨2, 0⟩ ≠
      Except.error EvalError.InvalidInput := by
  refine ⟨poly_nil _, ?_, ?_, ?_⟩ <;>
    simp [tfEvaluatedWithComplexNumber, poly_cons, poly_nil, Complex.pow, Complex.multiply,
      Complex.add, Complex.fromNumber, Complex.divide]

/-- C10, amended: for the empty coefficient sequence, evaluation at any complex point returns the
complex zero `(0, 0)`; hence a transfer function with an empty numerator returns `(0, 0)` wherever
its denominator does not evaluate to zero, and a transfer function with an empty denominator
fails with `DivisionByZero` at every point. -/
theorem C10_empty_sequence_amended {R : Type} [Field R] [DecidableEq R] (z : Complex R) :
    polynomialEvaluatedWithComplexNumber ([] : List R) z = ⟨0, 0⟩ ∧
    (∀ den : List R, polynomialEvaluatedWithComplexNumber den z ≠ ⟨0, 0⟩ →
      tfEvaluatedWithComplexNumber [] den z = Except.ok ⟨0, 0⟩) ∧
    (∀ num : List R,
      tfEvaluatedWithComplexNumber num [] z = Except.error EvalError.DivisionByZero) := by
  refine ⟨poly_nil z, fun den hden => ?_, fun num => ?_⟩
  · have hne : ¬ ((polynomialEvaluatedWithComplexNumber den z).real = 0 ∧
        (polynomialEvaluatedWithComplexNumber den z).im = 0) := by
      rintro ⟨hr, hi⟩
      exact hden (Complex.eq_of_parts hr hi)
    simp [tfEvaluatedWithComplexNumber, poly_nil, Complex.divide, hne]
  · simp only [tfEvaluatedWithComplexNumber, poly_nil]
    exact divide_by_zero _

/-- Witness of C10, amended: the empty numerator over the denominator `[1]` at `z = 2`. -/
theorem C10_empty_sequence_amended_witness :
    polynomialEvaluatedWithComplexNumber ([1] : List ℚ) ⟨2, 0⟩ ≠ ⟨0, 0⟩ ∧
    tfEvaluatedWithComplexNumber ([] : List ℚ) [1] ⟨2, 0⟩ = Except.ok ⟨0, 0⟩ := by
  have hden : polynomialEvaluatedWithComplexNumber ([1] : List ℚ) ⟨2, 0⟩ ≠ ⟨0, 0⟩ := by
    simp [poly_cons, poly_nil, Complex.pow, Complex.multiply, Complex.add, Complex.fromNumber]
  exact ⟨hden, (C10_empty_sequence_amended (⟨2, 0⟩ : Complex ℚ)).2.1 [1] hden⟩

end TransferFunction

/-! ## Constant term and position independence -/

section Positions

variable {R : Type}

/-- C11: for every complex `z`, the point `(0, 0)` included, and every `c`, evaluating the
one-element sequence `[c]` yields `(c, 0)`; the zeroth power used for the constant term is
`(1, 0)` whatever the base. -/
theorem C11_constant_sequence [CommRing R] (z : Complex R) (c : R) :
    z.pow 0 = ⟨1, 0⟩ ∧
    (Complex.mk (0 : R) 0).pow 0 = ⟨1, 0⟩ ∧
    polynomialEvaluatedWithComplexNumber [c] z = ⟨c, 0⟩ ∧
    polynomialEvaluatedWithComplexNumber [c] ⟨0, 0⟩ = ⟨c, 0⟩ := by
  refine ⟨rfl, rfl, ?_, ?_⟩ <;>
    simp [poly_cons, poly_nil, Complex.pow, Complex.multiply, Complex.add, Complex.fromNumber]

theorem realTerms_append [Zero R] [Neg R] (P C : List R) :
    ∃ P1 : List R, P1.length = P.length ∧
      polynomialEvaluatedWithWiRealTermsArray (P ++ C) =
        P1 ++ polynomialEvaluatedWithWiRealTermsArray C := by
  induction P with
  | nil => exact ⟨[], rfl, by simp⟩
  | cons a l ih =>
    obtain ⟨P1, hlen, heq⟩ := ih
    rw [List.cons_append, realTerms_cons, heq]
    exact ⟨_ :: P1, by simp [hlen], rfl⟩

theorem imagTerms_append [Zero R] [Neg R] (P C : List R) :
    ∃ P1 : List R, P1.length = P.length ∧
      polynomialEvaluatedWithWiImagTermsArray (P ++ C) =
        P1 ++ polynomialEvaluatedWithWiImagTermsArray C := by
  induction P with
  | nil => exact ⟨[], rfl, by simp⟩
  | cons a l ih =>
    obtain ⟨P1, hlen, heq⟩ := ih
    rw [List.cons_append, imagTerms_cons, heq]
    exact ⟨_ :: P1, by simp [hlen], rfl⟩

theorem realTerms_entry [Zero R] [Neg R] (C D : List R) (i j : Nat)
    (hi : i < C.length) (hj : j < D.length) (hcoef : C[i] = D[j])
    (hdist : C.length - i = D.length - j) :
    (polynomialEvaluatedWithWiRealTermsArray C)[i]? =
      (polynomialEvaluatedWithWiRealTermsArray D)[j]? := by
  have hk : ((C.length : Int) - i - 1) = ((D.length : Int) - j - 1) := by omega
  simp only [polynomialEvaluatedWithWiRealTermsArray, List.getElem?_mapIdx,
    List.getElem?_eq_getElem hi, List.getElem?_eq_getElem hj, Option.map_some', hk, hcoef]

theorem imagTerms_entry [Zero R] [Neg R] (C D : List R) (i j : Nat)
    (hi : i < C.length) (hj : j < D.length) (hcoef : C[i] = D[j])
    (hdist : C.length - i = D.length - j) :
    (polynomialEvaluatedWithWiImagTermsArray C)[i]? =
      (polynomialEvaluatedWithWiImagTermsArray D)[j]? := by
  have hk : ((C.length : Int) - i - 1) = ((D.length : Int) - j - 1) := by omega
  simp only [polynomialEvaluatedWithWiImagTermsArray, List.getElem?_mapIdx,
    List.getElem?_eq_getElem hi, List.getElem?_eq_getElem hj, Option.map_some', hk, hcoef]

/-- C12: the entry of the real terms array and of the imaginary terms array at a position depends
only on the coefficient there and on its distance from the end: whenever two sequences `C` and
`D` hold the same coefficient at positions `i` and `j` that are equally far from their ends, both
arrays hold equal entries there, whatever the other coefficients are. In particular, for all
sequences `P` and `C`, each function maps `P ++ C` to a sequence of length `|P|` followed by its
value on `C`, so the last `|C|` entries of the value on `P ++ C` are the value on `C`. -/
theorem C12_entries_depend_on_distance_from_end [Zero R] [Neg R] (P C : List R) :
    (∀ (D : List R) (i j : Nat) (hi : i < C.length) (hj : j < D.length),
      C[i] = D[j] → C.length - i = D.length - j →
        (polynomialEvaluatedWithWiRealTermsArray C)[i]? =
          (polynomialEvaluatedWithWiRealTermsArray D)[j]? ∧
        (polynomialEvaluatedWithWiImagTermsArray C)[i]? =
          (polynomialEvaluatedWithWiImagTermsArray D)[j]?) ∧
    (∃ P1 : List R, P1.length = P.length ∧
      polynomialEvaluatedWithWiRealTermsArray (P ++ C) =
        P1 ++ polynomialEvaluatedWithWiRealTermsArray C) ∧
    (∃ P2 : List R, P2.length = P.length ∧
      polynomialEvaluatedWithWiImagTermsArray (P ++ C) =
        P2 ++ polynomialEvaluatedWithWiImagTermsArray C) ∧
    (polynomialEvaluatedWithWiRealTermsArray (P ++ C)).drop P.length =
      polynomialEvaluatedWithWiRealTermsArray C ∧
    (polynomialEvaluatedWithWiImagTermsArray (P ++ C)).drop P.length =
      polynomialEvaluatedWithWiImagTermsArray C := by
  obtain ⟨P1, h1, e1⟩ := realTerms_append P C
  obtain ⟨P2, h2, e2⟩ := imagTerms_append P C
  refine ⟨fun D i j hi hj hcoef hdist =>
      ⟨realTerms_entry C D i j hi hj hcoef hdist, imagTerms_entry C D i j hi hj hcoef hdist⟩,
    ⟨P1, h1, e1⟩, ⟨P2, h2, e2⟩, ?_, ?_⟩
  · rw [e1, ← h1, List.drop_left]
  · rw [e2, ← h2, List.drop_left]

/-- Witness of C12: the coefficient 5 sits three places from the end both in `[5, 3, 7]` (index
0) and in `[9, 5, 100, 7]` (index 1), with different neighbours; both arrays hold the same entry
there, `-5` in the real terms and `0` in the imaginary terms. -/
theorem C12_entries_depend_on_distance_from_end_witness :
    (0 < ([5, 3, 7] : List Int).length ∧ 1 < ([9, 5, 100, 7] : List Int).length) ∧
    (([5, 3, 7] : List Int)[0] = ([9, 5, 100, 7] : List Int)[1] ∧
      ([5, 3, 7] : List Int).length - 0 = ([9, 5, 100, 7] : List Int).length - 1) ∧
    ((polynomialEvaluatedWithWiRealTermsArray ([5, 3, 7] : List Int))[0]? =
        (polynomialEvaluatedWithWiRealTermsArray ([9, 5, 100, 7] : List Int))[1]? ∧
      (polynomialEvaluatedWithWiImagTermsArray ([5, 3, 7] : List Int))[0]? =
        (polynomialEvaluatedWithWiImagTermsArray ([9, 5, 100, 7] : List Int))[1]?) ∧
    (polynomialEvaluatedWithWiRealTermsArray ([5, 3, 7] : List Int))[0]? = some (-5) :=
  ⟨by decide, by decide,
   (C12_entries_depend_on_distance_from_end ([] : List Int) [5, 3, 7]).1 [9, 5, 100, 7] 0 1
     (by decide) (by decide) (by decide) (by decide),
   by decide⟩

end Positions

/-! ## Block state history: auxiliary facts -/

section HistoryFacts

variable {S : Type}

theorem store_disabled (currentState : S) (b : BlockHistory S)
    (h : b.historicalStateStorageEnabled = false) :
    storeNewHistoricalBlockState currentState b = b := by
  simp [storeNewHistoricalBlockState, h]

theorem setBlockState_disabled (nested : List S) (b : BlockHistory S) :
    setBlockState nested (disableHistoricalStateStorage b) = disableHistoricalStateStorage b := by
  induction nested with
  | nil => rfl
  | cons s l ih =>
    show List.foldl _ _ (s :: l) = _
    rw [List.foldl_cons, store_disabled s _ rfl]
    exact ih

theorem splice_length_le (l : List S) (start : Int) : (splice l start).length ≤ l.length := by
  simp only [splice]
  exact List.length_take_le' _ _

theorem splice_keep_prefix (l : List S) (c : Nat) (hc : c + 1 < l.length) :
    splice l (-((l.length : Int) - (c : Int) - 1)) = l.take (c + 1) := by
  have hneg : -((l.length : Int) - (c : Int) - 1) < 0 := by omega
  have hpos : ((l.length : Int) + -((l.length : Int) - (c : Int) - 1)) = ((c + 1 : Nat) : Int) := by
    push_cast; ring
  simp only [splice, hneg, if_true, hpos]
  have hmax : max (((c + 1 : Nat) : Int)) 0 = ((c + 1 : Nat) : Int) := by
    apply max_eq_left; omega
  rw [hmax, Int.toNat_ofNat]

theorem store_history_le (currentState : S) (b : BlockHistory S)
    (h : b._stateHistory.length ≤ maxHistoricalStatesNumber) :
    (storeNewHistoricalBlockState currentState b)._stateHistory.length ≤
      maxHistoricalStatesNumber := by
  unfold storeNewHistoricalBlockState
  by_cases hen : b.historicalStateStorageEnabled = true
  · simp only [hen, if_true]
    have hs := splice_length_le b._stateHistory
      (-((b._stateHistory.length : Int) - b._currentHistoricalState.toNumber - 1))
    split_ifs <;> simp only [List.length_drop, List.length_append, List.length_singleton] at * <;>
      omega
  · simp only [hen]
    exact h

theorem store_enabled_index (currentState : S) (b : BlockHistory S)
    (hen : b.historicalStateStorageEnabled = true) :
    (storeNewHistoricalBlockState currentState b).historicalStateStorageEnabled = true ∧
    ∃ k : Nat,
      (storeNewHistoricalBlockState currentState b)._currentHistoricalState = JsIndex.number k ∧
      k < (storeNewHistoricalBlockState currentState b)._stateHistory.length ∧
      k + 1 = (storeNewHistoricalBlockState currentState b)._stateHistory.length := by
  unfold storeNewHistoricalBlockState
  simp only [hen, if_true, maxHistoricalStatesNumber]
  refine ⟨trivial, ?_⟩
  generalize splice b._stateHistory
    (-((b._stateHistory.length : Int) - b._currentHistoricalState.toNumber - 1)) = sp
  split_ifs with h1 h2 h2
  all_goals
    simp only [List.length_drop, List.length_append, List.length_singleton] at *
  · exact ⟨sp.length + 1 - 1 - 1, by congr 1; omega, by omega, by omega⟩
  · exact ⟨sp.length, by congr 1; omega, by omega, by omega⟩
  · exact ⟨b._stateHistory.length + 1 - 1 - 1, by congr 1; omega, by omega, by omega⟩
  · exact ⟨b._stateHistory.length, by congr 1; omega, by omega, by omega⟩

theorem loadPrevious_history (nested : List S) (b : BlockHistory S) :
    (loadPreviousHistoricalBlockState nested b).1._stateHistory = b._stateHistory := by
  unfold loadPreviousHistoricalBlockState
  simp only [setBlockState_disabled]
  split <;> (try split) <;> (try split) <;> rfl

theorem loadNext_history (nested : List S) (b : BlockHistory S) :
    (loadNextHistoricalBlockState nested b).1._stateHistory = b._stateHistory := by
  unfold loadNextHistoricalBlockState
  simp only [setBlockState_disabled]
  split <;> (try split) <;> (try split) <;> rfl

theorem loadPrevious_step (nested : List S) (b : BlockHistory S) (k : Nat)
    (hcur : b._currentHistoricalState = JsIndex.number (k + 1 : Nat))
    (hk : k + 1 < b._stateHistory.length) :
    (loadPreviousHistoricalBlockState nested b).1._currentHistoricalState = JsIndex.number k ∧
    (loadPreviousHistoricalBlockState nested b).1.historicalStateStorageEnabled = true ∧
    ∃ s, b._stateHistory[k]? = some s ∧
      (loadPreviousHistoricalBlockState nested b).2 = Restored.entry s := by
  have hlt : k < b._stateHistory.length := by omega
  have hget : b._stateHistory[k]? = some (b._stateHistory.get ⟨k, hlt⟩) :=
    List.getElem?_eq_getElem hlt
  have hge : ((k + 1 : Nat) : Int) - 1 ≥ 0 := by omega
  have hval : ((k + 1 : Nat) : Int) - 1 = (k : Int) := by omega
  unfold loadPreviousHistoricalBlockState
  simp only [hcur, JsIndex.toNumber, hge, if_true, setBlockState_disabled, JsIndex.lookup,
    disableHistoricalStateStorage, enableHistoricalStateStorage, hval, Int.toNat_ofNat,
    Int.natCast_nonneg, hget]
  refine ⟨?_, ?_, ?_⟩
  · split_ifs <;> rfl
  · split_ifs <;> rfl
  · exact ⟨_, rfl, rfl⟩

theorem loadPrevious_skip (nested : List S) (b : BlockHistory S)
    (h : b._currentHistoricalState.toNumber - 1 < 0) :
    (loadPreviousHistoricalBlockState nested b).1._currentHistoricalState =
      b._currentHistoricalState ∧
    (loadPreviousHistoricalBlockState nested b).1.historicalStateStorageEnabled =
      b.historicalStateStorageEnabled ∧
    (loadPreviousHistoricalBlockState nested b).2 = Restored.nothing := by
  have hge : ¬ (b._currentHistoricalState.toNumber - 1 ≥ 0) := by omega
  unfold loadPreviousHistoricalBlockState
  simp only [hge, if_false]
  refine ⟨?_, ?_, ?_⟩
  · split_ifs <;> rfl
  · split_ifs <;> rfl
  · first | rfl | trivial

theorem loadNext_step (nested : List S) (b : BlockHistory S) (k : Nat)
    (hcur : b._currentHistoricalState = JsIndex.number k)
    (hk : k + 1 < b._stateHistory.length) :
    (loadNextHistoricalBlockState nested b).1._currentHistoricalState =
      JsIndex.number (k + 1 : Nat) ∧
    (loadNextHistoricalBlockState nested b).1.historicalStateStorageEnabled = true ∧
    ∃ s, b._stateHistory[k + 1]? = some s ∧
      (loadNextHistoricalBlockState nested b).2 = Restored.entry s := by
  have hget : b._stateHistory[k + 1]? = some (b._stateHistory.get ⟨k + 1, hk⟩) :=
    List.getElem?_eq_getElem hk
  have hlt : (k : Int) + 1 < (b._stateHistory.length : Int) := by omega
  have hnn : (0 : Int) ≤ (k : Int) + 1 := by omega
  have hnat : ((k : Int) + 1).toNat = k + 1 := by omega
  unfold loadNextHistoricalBlockState
  simp only [hcur, JsIndex.toNumber, JsIndex.plusOne, hlt, if_true, setBlockState_disabled,
    JsIndex.lookup, disableHistoricalStateStorage, enableHistoricalStateStorage, hnn, hnat, hget]
  refine ⟨?_, ?_, ?_⟩
  · split_ifs <;> simp
  · split_ifs <;> rfl
  · exact ⟨_, rfl, rfl⟩

theorem loadNext_skip (nested : List S) (b : BlockHistory S)
    (h : ¬ (b._currentHistoricalState.plusOne.toNumber < (b._stateHistory.length : Int))) :
    (loadNextHistoricalBlockState nested b).1._currentHistoricalState =
      b._currentHistoricalState ∧
    (loadNextHistoricalBlockState nested b).1.historicalStateStorageEnabled =
      b.historicalStateStorageEnabled ∧
    (loadNextHistoricalBlockState nested b).2 = Restored.nothing := by
  unfold loadNextHistoricalBlockState
  simp only [h, if_false]
  refine ⟨?_, ?_, ?_⟩
  · split_ifs <;> rfl
  · split_ifs <;> rfl
  · first | rfl | trivial

theorem store_at_index (currentState : S) (b : BlockHistory S) (c : Nat)
    (hen : b.historicalStateStorageEnabled = true)
    (hcur : b._currentHistoricalState = JsIndex.number c)
    (hc : c < b._stateHistory.length) :
    (storeNewHistoricalBlockState currentState b)._stateHistory =
      (if maxHistoricalStatesNumber < (b._stateHistory.take (c + 1) ++ [currentState]).length then
        (b._stateHistory.take (c + 1) ++ [currentState]).drop 1
      else b._stateHistory.take (c + 1) ++ [currentState]) ∧
    (storeNewHistoricalBlockState currentState b)._currentHistoricalState =
      JsIndex.number
        (((storeNewHistoricalBlockState currentState b)._stateHistory.length : Int) - 1) := by
  have hsp : (if !(b._currentHistoricalState.strictEq ((b._stateHistory.length : Int) - 1)) then
        splice b._stateHistory
          (-((b._stateHistory.length : Int) - b._currentHistoricalState.toNumber - 1))
      else b._stateHistory) = b._stateHistory.take (c + 1) := by
    rw [hcur]
    simp only [JsIndex.strictEq, JsIndex.toNumber]
    by_cases hlast : c + 1 = b._stateHistory.length
    · have hb : ((c : Int) == (b._stateHistory.length : Int) - 1) = true := by
        simp only [beq_iff_eq]; omega
      rw [hb]
      simp only [Bool.not_true, Bool.false_eq_true, if_false]
      exact (List.take_of_length_le (by omega)).symm
    · have hb : ((c : Int) == (b._stateHistory.length : Int) - 1) = false := by
        simp only [beq_eq_false_iff_ne, ne_eq]; omega
      rw [hb]
      simp only [Bool.not_false, if_true]
      exact splice_keep_prefix _ c (by omega)
  unfold storeNewHistoricalBlockState
  simp only [hen, if_true, hsp]
  constructor <;> first | rfl | trivial

theorem runActions_cons (a : HistoryAction S) (actions : List (HistoryAction S))
    (b : BlockHistory S) : runActions (a :: actions) b = runActions actions (a.apply b) := rfl

theorem apply_history_le (a : HistoryAction S) (b : BlockHistory S)
    (h : b._stateHistory.length ≤ maxHistoricalStatesNumber) :
    (a.apply b)._stateHistory.length ≤ maxHistoricalStatesNumber := by
  cases a with
  | store currentState => exact store_history_le currentState b h
  | loadPrevious nested =>
    show (loadPreviousHistoricalBlockState nested b).1._stateHistory.length ≤ _
    rw [loadPrevious_history]; exact h
  | loadNext nested =>
    show (loadNextHistoricalBlockState nested b).1._stateHistory.length ≤ _
    rw [loadNext_history]; exact h

theorem runActions_history_le (actions : List (HistoryAction S)) (b : BlockHistory S)
    (h : b._stateHistory.length ≤ maxHistoricalStatesNumber) :
    (runActions actions b)._stateHistory.length ≤ maxHistoricalStatesNumber := by
  induction actions generalizing b with
  | nil => exact h
  | cons a actions ih =>
    rw [runActions_cons]
    exact ih _ (apply_history_le a b h)

theorem apply_in_range (a : HistoryAction S) (b : BlockHistory S) (k : Nat)
    (hen : b.historicalStateStorageEnabled = true)
    (hcur : b._currentHistoricalState = JsIndex.number k)
    (hk : k < b._stateHistory.length) :
    (a.apply b).historicalStateStorageEnabled = true ∧
    ∃ j : Nat, (a.apply b)._currentHistoricalState = JsIndex.number j ∧
      j < (a.apply b)._stateHistory.length := by
  cases a with
  | store currentState =>
    obtain ⟨h1, j, h2, h3, _⟩ := store_enabled_index currentState b hen
    exact ⟨h1, j, h2, h3⟩
  | loadPrevious nested =>
    show (loadPreviousHistoricalBlockState nested b).1.historicalStateStorageEnabled = true ∧
      ∃ j : Nat, (loadPreviousHistoricalBlockState nested b).1._currentHistoricalState =
        JsIndex.number j ∧ j < (loadPreviousHistoricalBlockState nested b).1._stateHistory.length
    rw [loadPrevious_history]
    cases k with
    | zero =>
      have hskip : b._currentHistoricalState.toNumber - 1 < 0 := by
        rw [hcur]; simp [JsIndex.toNumber]
      obtain ⟨h1, h2, _⟩ := loadPrevious_skip nested b hskip
      exact ⟨h2.trans hen, 0, h1.trans hcur, hk⟩
    | succ j =>
      obtain ⟨h1, h2, _⟩ := loadPrevious_step nested b j hcur hk
      exact ⟨h2, j, h1, by omega⟩
  | loadNext nested =>
    show (loadNextHistoricalBlockState nested b).1.historicalStateStorageEnabled = true ∧
      ∃ j : Nat, (loadNextHistoricalBlockState nested b).1._currentHistoricalState =
        JsIndex.number j ∧ j < (loadNextHistoricalBlockState nested b).1._stateHistory.length
    rw [loadNext_history]
    by_cases hnext : k + 1 < b._stateHistory.length
    · obtain ⟨h1, h2, _⟩ := loadNext_step nested b k hcur hnext
      exact ⟨h2, k + 1, h1, hnext⟩
    · have hskip : ¬ (b._currentHistoricalState.plusOne.toNumber <
          (b._stateHistory.length : Int)) := by
        rw [hcur]; simp only [JsIndex.plusOne, JsIndex.toNumber]; omega
      obtain ⟨h1, h2, _⟩ := loadNext_skip nested b hskip
      exact ⟨h2.trans hen, k, h1.trans hcur, hk⟩

theorem runActions_in_range (actions : List (HistoryAction S)) (b : BlockHistory S) (k : Nat)
    (hen : b.historicalStateStorageEnabled = true)
    (hcur : b._currentHistoricalState = JsIndex.number k)
    (hk : k < b._stateHistory.length) :
    (runActions actions b).historicalStateStorageEnabled = true ∧
    ∃ j : Nat, (runActions actions b)._currentHistoricalState = JsIndex.number j ∧
      j < (runActions actions b)._stateHistory.length := by
  induction actions generalizing b k with
  | nil => exact ⟨hen, k, hcur, hk⟩
  | cons a actions ih =>
    rw [runActions_cons]
    obtain ⟨h1, j, h2, h3⟩ := apply_in_range a b k hen hcur hk
    exact ih _ j h1 h2 h3

theorem runActions_after_clear (actions : List (HistoryAction S)) (b : BlockHistory S)
    (hen : b.historicalStateStorageEnabled = true)
    (hcur : b._currentHistoricalState = JsIndex.emptyArray)
    (hnil : b._stateHistory = [])
    (hstore : ∃ currentState, HistoryAction.store currentState ∈ actions) :
    (runActions actions b).historicalStateStorageEnabled = true ∧
    ∃ j : Nat, (runActions actions b)._currentHistoricalState = JsIndex.number j ∧
      j < (runActions actions b)._stateHistory.length := by
  induction actions generalizing b with
  | nil =>
    obtain ⟨s, hs⟩ := hstore
    simp at hs
  | cons a actions ih =>
    rw [runActions_cons]
    cases a with
    | store currentState =>
      obtain ⟨h1, j, h2, h3, _⟩ := store_enabled_index currentState b hen
      exact runActions_in_range actions _ j h1 h2 h3
    | loadPrevious nested =>
      have hskip : b._currentHistoricalState.toNumber - 1 < 0 := by
        rw [hcur]; simp [JsIndex.toNumber]
      obtain ⟨h1, h2, _⟩ := loadPrevious_skip nested b hskip
      obtain ⟨s, hs⟩ := hstore
      refine ih _ (h2.trans hen) (h1.trans hcur) ((loadPrevious_history nested b).trans hnil)
        ⟨s, ?_⟩
      simpa using hs
    | loadNext nested =>
      have hskip : ¬ (b._currentHistoricalState.plusOne.toNumber <
          (b._stateHistory.length : Int)) := by
        rw [hcur, hnil]; simp [JsIndex.plusOne, JsIndex.toNumber]
      obtain ⟨h1, h2, _⟩ := loadNext_skip nested b hskip
      obtain ⟨s, hs⟩ := hstore
      refine ih _ (h2.trans hen) (h1.trans hcur) ((loadNext_history nested b).trans hnil)
        ⟨s, ?_⟩
      simpa using hs

theorem load_outcomes_in_range (b : BlockHistory S) (k : Nat)
    (hcur : b._currentHistoricalState = JsIndex.number k)
    (hk : k < b._stateHistory.length) (nested : List S) :
    ((loadPreviousHistoricalBlockState nested b).2 = Restored.nothing ∨
      ∃ s, s ∈ b._stateHistory ∧
        (loadPreviousHistoricalBlockState nested b).2 = Restored.entry s) ∧
    ((loadNextHistoricalBlockState nested b).2 = Restored.nothing ∨
      ∃ s, s ∈ b._stateHistory ∧
        (loadNextHistoricalBlockState nested b).2 = Restored.entry s) := by
  constructor
  · cases k with
    | zero =>
      have hskip : b._currentHistoricalState.toNumber - 1 < 0 := by
        rw [hcur]; simp [JsIndex.toNumber]
      exact Or.inl (loadPrevious_skip nested b hskip).2.2
    | succ j =>
      obtain ⟨_, _, s, hs, hr⟩ := loadPrevious_step nested b j hcur hk
      exact Or.inr ⟨s, List.getElem?_mem hs, hr⟩
  · by_cases hnext : k + 1 < b._stateHistory.length
    · obtain ⟨_, _, s, hs, hr⟩ := loadNext_step nested b k hcur hnext
      exact Or.inr ⟨s, List.getElem?_mem hs, hr⟩
    · have hskip : ¬ (b._currentHistoricalState.plusOne.toNumber <
          (b._stateHistory.length : Int)) := by
        rw [hcur]; simp only [JsIndex.plusOne, JsIndex.toNumber]; omega
      exact Or.inl (loadNext_skip nested b hskip).2.2

end HistoryFacts

/-! ## Block state history: the claims -/

section HistoryClaims

variable {S : Type}

/-- C13: with history storage enabled, for every history of length `n` with `1 ≤ n ≤ 150` and
current index `c < n`, storing a new state leaves the history equal to the first `c + 1` old
states followed by the newly captured state, with the oldest state dropped if that exceeds 150
entries, and sets the current index to the last position. -/
theorem C13_store_truncates_then_appends (b : BlockHistory S) (currentState : S) (c : Nat)
    (hen : b.historicalStateStorageEnabled = true)
    (hcur : b._currentHistoricalState = JsIndex.number c)
    (hlen : 1 ≤ b._stateHistory.length ∧ b._stateHistory.length ≤ 150)
    (hc : c < b._stateHistory.length) :
    (storeNewHistoricalBlockState currentState b)._stateHistory =
      (if 150 < (b._stateHistory.take (c + 1) ++ [currentState]).length then
        (b._stateHistory.take (c + 1) ++ [currentState]).drop 1
      else b._stateHistory.take (c + 1) ++ [currentState]) ∧
    (storeNewHistoricalBlockState currentState b)._currentHistoricalState =
      JsIndex.number
        (((storeNewHistoricalBlockState currentState b)._stateHistory.length : Int) - 1) ∧
    1 ≤ (storeNewHistoricalBlockState currentState b)._stateHistory.length ∧
    (storeNewHistoricalBlockState currentState b)._stateHistory.length ≤ 150 := by
  obtain ⟨h1, h2⟩ := store_at_index currentState b c hen hcur hc
  obtain ⟨_, j, _, hj, _⟩ := store_enabled_index currentState b hen
  exact ⟨h1, h2, by omega, store_history_le currentState b hlen.2⟩

/-- Witness of C13: the history `[10, 20, 30]` at index 1 stores 99 as `[10, 20, 99]` and moves
to index 2. -/
theorem C13_store_truncates_then_appends_witness :
    (storeNewHistoricalBlockState 99
        (⟨[10, 20, 30], JsIndex.number 1, true, false, false⟩ : BlockHistory Nat))._stateHistory =
      [10, 20, 99] ∧
    (storeNewHistoricalBlockState 99
        (⟨[10, 20, 30], JsIndex.number 1, true, false, false⟩ :
          BlockHistory Nat))._currentHistoricalState = JsIndex.number 2 := by
  have h := C13_store_truncates_then_appends
    (⟨[10, 20, 30], JsIndex.number 1, true, false, false⟩ : BlockHistory Nat) 99 1
    rfl rfl (by decide) (by decide)
  exact ⟨h.1.trans (by decide), h.2.1.trans (by decide)⟩

/-- C14: in every state reached from `clearBlockStateHistory` by any sequence of stores, loads of
the previous state and loads of the next state, the history holds at most 150 states. -/
theorem C14_history_at_most_150 (b : BlockHistory S) (actions : List (HistoryAction S)) :
    (runActions actions (clearBlockStateHistory b))._stateHistory.length ≤ 150 :=
  runActions_history_le actions (clearBlockStateHistory b) (by simp [clearBlockStateHistory])

/-- C15: in every state reached from `clearBlockStateHistory`, with storage enabled, by a
sequence of stores and loads that holds at least one store, the current index is a number `c`
with `0 ≤ c < length`, and the state that a load of the previous or of the next state passes to
`setBlockState`, if any, is an entry of the history. -/
theorem C15_index_within_history (b : BlockHistory S) (actions : List (HistoryAction S))
    (hen : b.historicalStateStorageEnabled = true)
    (hstore : ∃ currentState, HistoryAction.store currentState ∈ actions) :
    (∃ c : Nat,
      (runActions actions (clearBlockStateHistory b))._currentHistoricalState =
        JsIndex.number c ∧
      c < (runActions actions (clearBlockStateHistory b))._stateHistory.length) ∧
    ∀ nested : List S,
      ((loadPreviousHistoricalBlockState nested
            (runActions actions (clearBlockStateHistory b))).2 = Restored.nothing ∨
        ∃ s, s ∈ (runActions actions (clearBlockStateHistory b))._stateHistory ∧
          (loadPreviousHistoricalBlockState nested
            (runActions actions (clearBlockStateHistory b))).2 = Restored.entry s) ∧
      ((loadNextHistoricalBlockState nested
            (runActions actions (clearBlockStateHistory b))).2 = Restored.nothing ∨
        ∃ s, s ∈ (runActions actions (clearBlockStateHistory b))._stateHistory ∧
          (loadNextHistoricalBlockState nested
            (runActions actions (clearBlockStateHistory b))).2 = Restored.entry s) := by
  obtain ⟨_, c, hc, hlt⟩ :=
    runActions_after_clear actions (clearBlockStateHistory b) hen rfl rfl hstore
  exact ⟨⟨c, hc, hlt⟩, fun nested => load_outcomes_in_range _ c hc hlt nested⟩

/-- Witness of C15: after clearing, a load of the next state, two stores and a load of the
previous state. -/
theorem C15_index_within_history_witness :
    ∃ c : Nat,
      (runActions
          [HistoryAction.loadNext [], HistoryAction.store 1, HistoryAction.store 2,
            HistoryAction.loadPrevious [3]]
          (clearBlockStateHistory
            (⟨[5], JsIndex.number 7, true, false, false⟩ :
              BlockHistory Nat)))._currentHistoricalState = JsIndex.number c ∧
      c < (runActions
          [HistoryAction.loadNext [], HistoryAction.store 1, HistoryAction.store 2,
            HistoryAction.loadPrevious [3]]
          (clearBlockStateHistory
            (⟨[5], JsIndex.number 7, true, false, false⟩ :
              BlockHistory Nat)))._stateHistory.length :=
  (C15_index_within_history (⟨[5], JsIndex.number 7, true, false, false⟩ : BlockHistory Nat)
    [HistoryAction.loadNext [], HistoryAction.store 1, HistoryAction.store 2,
      HistoryAction.loadPrevious [3]]
    rfl ⟨1, by simp⟩).1

/-- C16: for every history and current index `c` with `0 < c < length`, a load of the previous
state followed by a load of the next state returns the current index to `c`, and neither changes
the history, whatever is stored while the state is restored; at index 0 a load of the previous
state leaves index and history unchanged, and at index `length - 1` a load of the next state
leaves them unchanged. -/
theorem C16_previous_then_next (b : BlockHistory S) (nested1 nested2 : List S) :
    (∀ c : Nat, b._currentHistoricalState = JsIndex.number c → 0 < c →
      c < b._stateHistory.length →
        (loadPreviousHistoricalBlockState nested1 b).1._stateHistory = b._stateHistory ∧
        (loadPreviousHistoricalBlockState nested1 b).1._currentHistoricalState =
          JsIndex.number ((c : Int) - 1) ∧
        (loadNextHistoricalBlockState nested2
          (loadPreviousHistoricalBlockState nested1 b).1).1._stateHistory = b._stateHistory ∧
        (loadNextHistoricalBlockState nested2
          (loadPreviousHistoricalBlockState nested1 b).1).1._currentHistoricalState =
            JsIndex.number c) ∧
    (b._currentHistoricalState = JsIndex.number 0 →
      (loadPreviousHistoricalBlockState nested1 b).1._stateHistory = b._stateHistory ∧
      (loadPreviousHistoricalBlockState nested1 b).1._currentHistoricalState =
        JsIndex.number 0) ∧
    (b._currentHistoricalState = JsIndex.number ((b._stateHistory.length : Int) - 1) →
      (loadNextHistoricalBlockState nested1 b).1._stateHistory = b._stateHistory ∧
      (loadNextHistoricalBlockState nested1 b).1._currentHistoricalState =
        JsIndex.number ((b._stateHistory.length : Int) - 1)) := by
  refine ⟨fun c hcur hpos hlt => ?_, fun hcur => ?_, fun hcur => ?_⟩
  · obtain ⟨j, rfl⟩ : ∃ j, c = j + 1 := ⟨c - 1, by omega⟩
    obtain ⟨h1, _, _⟩ := loadPrevious_step nested1 b j hcur hlt
    have hh := loadPrevious_history nested1 b
    have hlt2 : j + 1 < (loadPreviousHistoricalBlockState nested1 b).1._stateHistory.length := by
      rw [hh]; exact hlt
    obtain ⟨h2, _, _⟩ := loadNext_step nested2 _ j h1 hlt2
    refine ⟨hh, ?_, (loadNext_history nested2 _).trans hh, h2⟩
    rw [h1]; congr 1; omega
  · have hskip : b._currentHistoricalState.toNumber - 1 < 0 := by
      rw [hcur]; simp [JsIndex.toNumber]
    exact ⟨loadPrevious_history nested1 b, (loadPrevious_skip nested1 b hskip).1.trans hcur⟩
  · have hskip : ¬ (b._currentHistoricalState.plusOne.toNumber <
        (b._stateHistory.length : Int)) := by
      rw [hcur]; simp only [JsIndex.plusOne, JsIndex.toNumber]; omega
    exact ⟨loadNext_history nested1 b, (loadNext_skip nested1 b hskip).1.trans hcur⟩

/-- Witness of C16: the history `[10, 20, 30]` at index 1, with one store attempted during each
restoration. -/
theorem C16_previous_then_next_witness :
    (loadNextHistoricalBlockState [8]
        (loadPreviousHistoricalBlockState [9]
          (⟨[10, 20, 30], JsIndex.number 1, true, false, false⟩ :
            BlockHistory Nat)).1).1._stateHistory = [10, 20, 30] ∧
    (loadNextHistoricalBlockState [8]
        (loadPreviousHistoricalBlockState [9]
          (⟨[10, 20, 30], JsIndex.number 1, true, false, false⟩ :
            BlockHistory Nat)).1).1._currentHistoricalState = JsIndex.number 1 :=
  ⟨((C16_previous_then_next
      (⟨[10, 20, 30], JsIndex.number 1, true, false, false⟩ : BlockHistory Nat) [9] [8]).1
      1 rfl (by decide) (by decide)).2.2.1,
   ((C16_previous_then_next
      (⟨[10, 20, 30], JsIndex.number 1, true, false, false⟩ : BlockHistory Nat) [9] [8]).1
      1 rfl (by decide) (by decide)).2.2.2⟩

/-- C17 fails on the code at the first store: after `clearBlockStateHistory` and one store with
storage enabled, the history holds the single stored state and the current index is 0, yet the
previous button is enabled (the next button is disabled, as the claim says). -/
theorem C17_first_store_enables_previous (b : BlockHistory S) (currentState : S)
    (hen : b.historicalStateStorageEnabled = true) :
    (storeNewHistoricalBlockState currentState (clearBlockStateHistory b))._stateHistory =
      [currentState] ∧
    (storeNewHistoricalBlockState currentState
      (clearBlockStateHistory b))._currentHistoricalState = JsIndex.number 0 ∧
    (storeNewHistoricalBlockState currentState
      (clearBlockStateHistory b)).previousButtonDisabled = false ∧
    (storeNewHistoricalBlockState currentState
      (clearBlockStateHistory b)).nextButtonDisabled = true := by
  simp [storeNewHistoricalBlockState, clearBlockStateHistory, hen, splice, JsIndex.strictEq,
    JsIndex.toNumber, maxHistoricalStatesNumber]

/-- Witness of C17's failing input: clearing and storing the state 7. -/
theorem C17_first_store_enables_previous_witness :
    (storeNewHistoricalBlockState 7
      (clearBlockStateHistory
        (⟨[], JsIndex.emptyArray, true, true, true⟩ :
          BlockHistory Nat)))._currentHistoricalState = JsIndex.number 0 ∧
    (storeNewHistoricalBlockState 7
      (clearBlockStateHistory
        (⟨[], JsIndex.emptyArray, true, true, true⟩ :
          BlockHistory Nat))).previousButtonDisabled = false :=
  ⟨(C17_first_store_enables_previous
      (⟨[], JsIndex.emptyArray, true, true, true⟩ : BlockHistory Nat) 7 rfl).2.1,
   (C17_first_store_enables_previous
      (⟨[], JsIndex.emptyArray, true, true, true⟩ : BlockHistory Nat) 7 rfl).2.2.1⟩

end HistoryClaims

end ControlWeb
